import Mathlib

/-!
Shallow embedding of the Dwarf2Ctags tool (src/main.rs).

The tool walks the DWARF debug information of an ELF binary, collects a
`FunctionInfo` record for every `DW_TAG_subprogram` entry whose name,
declaring file, declaration line and declaration column all resolve, then
sorts the records, removes adjacent duplicates and prints a ctags index.

The embedding models the gimli-level data the program inspects:
attribute values, the per-unit line-program header (file table with
directory indirection), the unit's recorded source name, and the
`.debug_str` string table.  Rust `unwrap` panics and checked-arithmetic
aborts are modelled by the `RunResult.aborted` outcome.
-/

namespace Dwarf2Ctags

/-- The record collected for each fully resolved subprogram
(struct `FunctionInfo` in src/main.rs, fields in declaration order). -/
structure FunctionInfo where
  func_name : String
  file_name : String
  line_number : Nat
  column_number : Nat
deriving DecidableEq

/-- Outcome of running Rust code that may panic (an `unwrap` on a missing
value, or u64 subtraction underflow under the default debug profile's
overflow checks). -/
inductive RunResult (α : Type) where
  | ok (val : α)
  | aborted
deriving DecidableEq

/-- The attribute-value encodings `process_subprogram` distinguishes:
`gimli::AttributeValue::DebugStrRef`, `FileIndex`, `String` (inline
string, here `StringVal`), any value with an unsigned numeric
interpretation (`udata_value` succeeds, here `Udata`), and everything
else. -/
inductive AttributeValue where
  | DebugStrRef (offset : Nat)
  | FileIndex (val : Nat)
  | StringVal (s : String)
  | Udata (v : Nat)
  | Other
deriving DecidableEq

/-- The attribute names `process_subprogram` dispatches on; all other
names fall into the ignored `otherAttr` case. -/
inductive AttrName where
  | DW_AT_name
  | DW_AT_decl_file
  | DW_AT_decl_line
  | DW_AT_decl_column
  | otherAttr
deriving DecidableEq

/-- Entry tags: only `DW_TAG_subprogram` is processed by `main`. -/
inductive Tag where
  | DW_TAG_subprogram
  | otherTag
deriving DecidableEq

/-- A debugging information entry: its tag and its attribute list in
iteration order (`entry.attrs()`). -/
structure Entry where
  tag : Tag
  attrs : List (AttrName × AttributeValue)
deriving DecidableEq

/-- One entry of the line-program header's file table
(`gimli::FileEntry`): its directory index and its path-name attribute
value. -/
structure FileEntry where
  directory_index : Nat
  path_name : AttributeValue
deriving DecidableEq

/-- The unit's line-number-program header: the raw file-name table
(`file_names()`, indexed by `get(index)`) and the directory table
(`directory(i)` modelled as positional lookup). -/
structure LineProgramHeader where
  file_names : List FileEntry
  directories : List AttributeValue
deriving DecidableEq

/-- A compilation unit as `process_subprogram` and `main` observe it after
`dwarf.unit(header)`: its recorded source name (`unit.name`), its line
program, and its entry tree flattened in DFS pre-order
(`entries.next_dfs()`). -/
structure CompUnit where
  name : Option String
  line_program : Option LineProgramHeader
  entries : List Entry
deriving DecidableEq

/-- The DWARF context used by the resolver: the `.debug_str` section as a
map from offsets to strings. -/
structure Dwarf where
  debug_str : List (Nat × String)
deriving DecidableEq

/-- `dwarf.debug_str.get_str(off)`: `none` models the `Err` case (offset
not present), on which the source's `unwrap` panics. -/
def get_str (d : Dwarf) (off : Nat) : Option String :=
  (d.debug_str.find? (fun p => p.1 == off)).map (fun p => p.2)

/-- `dwarf.attr_string(&unit, av)`: resolves an inline string directly and
a `DebugStrRef` through the unit-scoped `.debug_str` lookup; other
encodings yield `Err` (here `none`), on which the source's `unwrap`
panics. -/
def attr_string (d : Dwarf) (_u : CompUnit) (av : AttributeValue) : Option String :=
  match av with
  | .StringVal s => some s
  | .DebugStrRef off => get_str d off
  | _ => none

/-- `AttributeValue::udata_value()`. -/
def udata_value : AttributeValue → Option Nat
  | .Udata v => some v
  | _ => none

/-- Rust `u64` subtraction as executed by `val - 1` in the source: under
the default debug profile's overflow checks an underflow panics, so the
underflowing case is modelled as an abort.  (A release build would wrap
to `2^64 - 1`, and the subsequent `file_names().get(...).unwrap()` would
panic instead; the observable outcome is an abort either way.) -/
def u64_checked_sub (a b : Nat) : RunResult Nat :=
  if a < b then .aborted else .ok (a - b)

/-- `std::path::Path::new(dir).join(file)` on the cases the tool can
produce: an absolute `file` replaces `dir`; otherwise the components are
joined with a single separator. -/
def path_join (dir file : String) : String :=
  if file.startsWith "/" then file
  else if dir = "" then file
  else if dir.endsWith "/" then dir ++ file
  else dir ++ "/" ++ file

/-- The `DW_AT_decl_file` arm of `process_subprogram` given the raw
`FileIndex` value `val`:  compute `index = val - 1`; if `index == 0` the
file is the unit's own recorded name (`unwrap` panics when absent);
otherwise look the file entry up in the line program's file table, fetch
its directory, and only when the directory value is an inline string join
it with the resolved file name.  Every `unwrap` on a missing value is an
abort; a directory value of any other encoding leaves the field
unresolved (`ok none`). -/
def resolve_decl_file (d : Dwarf) (u : CompUnit) (val : Nat) : RunResult (Option String) :=
  match u64_checked_sub val 1 with
  | .aborted => .aborted
  | .ok index =>
    if index = 0 then
      match u.name with
      | some n => .ok (some n)
      | none => .aborted
    else
      match u.line_program with
      | none => .aborted
      | some lp =>
        match lp.file_names[index]? with
        | none => .aborted
        | some f =>
          match lp.directories[f.directory_index]? with
          | none => .aborted
          | some dirv =>
            match dirv with
            | .StringVal s =>
              match attr_string d u f.path_name with
              | none => .aborted
              | some fs => .ok (some (path_join s fs))
            | _ => .ok none

/-- The four `Option` accumulators of `process_subprogram`'s attribute
loop. -/
structure AttrState where
  func_name : Option String
  file_name : Option String
  line_number : Option Nat
  column_number : Option Nat
deriving DecidableEq

/-- All four fields start unresolved. -/
def initAttrState : AttrState := ⟨none, none, none, none⟩

/-- One iteration of the attribute loop of `process_subprogram`:
dispatch on the attribute name; `DW_AT_name` requires a `DebugStrRef`
(any other encoding is ignored), `DW_AT_decl_file` requires a
`FileIndex` (any other encoding is ignored), `DW_AT_decl_line` and
`DW_AT_decl_column` call `udata_value().unwrap()`, which aborts when the
value has no unsigned interpretation. -/
def process_attr (d : Dwarf) (u : CompUnit) (st : AttrState)
    (a : AttrName × AttributeValue) : RunResult AttrState :=
  match a.1 with
  | .DW_AT_name =>
    match a.2 with
    | .DebugStrRef off =>
      match get_str d off with
      | some s => .ok { st with func_name := some s }
      | none => .aborted
    | _ => .ok st
  | .DW_AT_decl_file =>
    match a.2 with
    | .FileIndex val =>
      match resolve_decl_file d u val with
      | .aborted => .aborted
      | .ok none => .ok st
      | .ok (some f) => .ok { st with file_name := some f }
    | _ => .ok st
  | .DW_AT_decl_line =>
    match udata_value a.2 with
    | some v => .ok { st with line_number := some v }
    | none => .aborted
  | .DW_AT_decl_column =>
    match udata_value a.2 with
    | some v => .ok { st with column_number := some v }
    | none => .aborted
  | .otherAttr => .ok st

/-- The attribute loop (`while let Some(attr) = attrs.next() ...`). -/
def process_attrs (d : Dwarf) (u : CompUnit) :
    List (AttrName × AttributeValue) → AttrState → RunResult AttrState
  | [], st => .ok st
  | a :: rest, st =>
    match process_attr d u st a with
    | .ok st2 => process_attrs d u rest st2
    | .aborted => .aborted

/-- `process_subprogram`: run the attribute loop from the all-unresolved
state; return a record exactly when all four fields resolved, otherwise
no record. -/
def process_subprogram (d : Dwarf) (u : CompUnit) (e : Entry) :
    RunResult (Option FunctionInfo) :=
  match process_attrs d u e.attrs initAttrState with
  | .aborted => .aborted
  | .ok st =>
    match st.func_name, st.file_name, st.line_number, st.column_number with
    | some func, some file, some line, some col => .ok (some ⟨func, file, line, col⟩)
    | _, _, _, _ => .ok none

/-- The inner entry loop of `main`: subprogram entries that yield a record
are pushed onto the collector; entries yielding no record, and entries
with any other tag, contribute nothing. -/
def run_entries (d : Dwarf) (u : CompUnit) :
    List Entry → List FunctionInfo → RunResult (List FunctionInfo)
  | [], acc => .ok acc
  | e :: rest, acc =>
    match e.tag with
    | .DW_TAG_subprogram =>
      match process_subprogram d u e with
      | .aborted => .aborted
      | .ok none => run_entries d u rest acc
      | .ok (some f) => run_entries d u rest (acc ++ [f])
    | .otherTag => run_entries d u rest acc

/-- The outer unit loop of `main`. -/
def run_units (d : Dwarf) : List CompUnit → List FunctionInfo → RunResult (List FunctionInfo)
  | [], acc => .ok acc
  | u :: rest, acc =>
    match run_entries d u u.entries acc with
    | .aborted => .aborted
    | .ok acc2 => run_units d rest acc2

/-- The full traversal: all records buffered in `file_info_list`. -/
def collect (d : Dwarf) (units : List CompUnit) : RunResult (List FunctionInfo) :=
  run_units d units []

/-- `print_file_info`: one tab-separated data line; the column is not
printed. -/
def print_file_info (f : FunctionInfo) : String :=
  f.func_name ++ "\t" ++ f.file_name ++ "\t:" ++ toString f.line_number

/-- First fixed ctags header line printed by `main`. -/
def ctags_header_1 : String :=
  "!_TAG_FILE_FORMAT\t2\t/extended format; --format=1 will not append ;\" to lines/"

/-- Second fixed ctags header line printed by `main`. -/
def ctags_header_2 : String :=
  "!_TAG_FILE_SORTED\t1\t/0=unsorted, 1=sorted, 2=foldcase/"

/-- Strict comparison of character lists, head first: the executable form
of Rust's lexicographic `&str` comparison (byte order and code-point
order agree on UTF-8 text). -/
def chars_lt : List Char → List Char → Bool
  | _, [] => false
  | [], _ :: _ => true
  | a :: as, b :: bs => decide (a < b) || (decide (a = b) && chars_lt as bs)

/-- Rust's `&str` `<`, on the underlying character sequences. -/
def str_lt (a b : String) : Bool := chars_lt a.data b.data

/-- The boolean `<=` of the derived `Ord` on `FunctionInfo`: lexicographic
over (func_name, file_name, line_number, column_number), used by
`file_info_list.sort()`. -/
def fiLe (a b : FunctionInfo) : Bool :=
  str_lt a.func_name b.func_name ||
    (decide (a.func_name = b.func_name) &&
      (str_lt a.file_name b.file_name ||
        (decide (a.file_name = b.file_name) &&
          (decide (a.line_number < b.line_number) ||
            (decide (a.line_number = b.line_number) &&
              decide (a.column_number ≤ b.column_number))))))

/-- `file_info_list.sort()`: a stable sort under the derived order. -/
def sort_records (l : List FunctionInfo) : List FunctionInfo :=
  l.mergeSort fiLe

/-- `file_info_list.dedup()`: remove consecutive equal records, keeping
the first of each run. -/
def rust_dedup : List FunctionInfo → List FunctionInfo
  | [] => []
  | [a] => [a]
  | a :: b :: rest =>
    if a = b then rust_dedup (a :: rest) else a :: rust_dedup (b :: rest)

/-- Everything `main` writes to standard output, in order, as a list of
lines.  In the source the two header `println!` calls sit after the unit
loop, so an abort anywhere during traversal (any `unwrap` panic) produces
no output at all; on success the headers are followed by the sorted,
deduplicated data lines. -/
def main_output (d : Dwarf) (units : List CompUnit) : RunResult (List String) :=
  match collect d units with
  | .aborted => .aborted
  | .ok l =>
    .ok (ctags_header_1 :: ctags_header_2 ::
      (rust_dedup (sort_records l)).map print_file_info)

/-- The spec's total order on records, stated independently of the code:
the lexicographic order on the key (name, file, line, column). -/
def fiKey (f : FunctionInfo) : String ×ₗ (String ×ₗ (Nat ×ₗ Nat)) :=
  toLex (f.func_name, toLex (f.file_name, toLex (f.line_number, f.column_number)))

/-- Strict ascending order on records: strictly smaller key. -/
def fiLt (a b : FunctionInfo) : Prop :=
  fiKey a < fiKey b

/-! ### Order facts linking the code's comparison to the key order -/

theorem chars_lt_iff (l₁ l₂ : List Char) : chars_lt l₁ l₂ = true ↔ List.Lex (· < ·) l₁ l₂ := by
  induction l₁ generalizing l₂ with
  | nil =>
    cases l₂ with
    | nil => simp [chars_lt]
    | cons b bs => simp [chars_lt]; exact List.Lex.nil
  | cons a as ih =>
    cases l₂ with
    | nil => simp [chars_lt]
    | cons b bs =>
      simp only [chars_lt, Bool.or_eq_true, Bool.and_eq_true, decide_eq_true_iff, ih]
      constructor
      · rintro (h | ⟨rfl, h⟩)
        · exact List.Lex.rel h
        · exact List.Lex.cons h
      · intro h
        cases h with
        | cons h => exact Or.inr ⟨rfl, h⟩
        | rel h => exact Or.inl h

theorem str_lt_iff (a b : String) : str_lt a b = true ↔ a < b := by
  rw [String.lt_iff_toList_lt]
  exact chars_lt_iff a.data b.data

theorem fiLe_iff (a b : FunctionInfo) : fiLe a b = true ↔ fiKey a ≤ fiKey b := by
  simp [fiLe, fiKey, Prod.Lex.le_iff, Prod.Lex.lt_iff, str_lt_iff]

theorem fiLt_iff_lex (a b : FunctionInfo) :
    fiLt a b ↔ (a.func_name < b.func_name ∨ (a.func_name = b.func_name ∧
      (a.file_name < b.file_name ∨ (a.file_name = b.file_name ∧
        (a.line_number < b.line_number ∨ (a.line_number = b.line_number ∧
          a.column_number < b.column_number)))))) := by
  simp [fiLt, fiKey, Prod.Lex.lt_iff]

theorem fiKey_inj {a b : FunctionInfo} (h : fiKey a = fiKey b) : a = b := by
  cases a; cases b
  simp [fiKey, toLex_inj, Prod.mk.injEq] at h
  obtain ⟨h1, h2, h3, h4⟩ := h
  simp_all

theorem fiLe_trans (a b c : FunctionInfo) :
    fiLe a b = true → fiLe b c = true → fiLe a c = true := by
  simp only [fiLe_iff]
  exact le_trans

theorem fiLe_total (a b : FunctionInfo) : fiLe a b || fiLe b a := by
  rcases le_total (fiKey a) (fiKey b) with h | h
  · simp [fiLe_iff, h]
  · simp [fiLe_iff, h]

theorem fiLt_of_le_ne {a b : FunctionInfo} (h : fiLe a b = true) (hne : a ≠ b) : fiLt a b :=
  lt_of_le_of_ne ((fiLe_iff a b).mp h) (fun hk => hne (fiKey_inj hk))

theorem fiLt_of_lt_of_le {a b c : FunctionInfo} (h1 : fiLt a b) (h2 : fiLe b c = true) :
    fiLt a c :=
  lt_of_lt_of_le h1 ((fiLe_iff b c).mp h2)

theorem fiLt_ne {a b : FunctionInfo} (h : fiLt a b) : a ≠ b := by
  intro he
  subst he
  exact lt_irrefl _ h

/-! ### Sortedness of the sort stage -/

theorem sort_records_pairwise (l : List FunctionInfo) :
    (sort_records l).Pairwise (fun a b => fiLe a b = true) :=
  List.sorted_mergeSort fiLe_trans fiLe_total l

theorem sort_records_mem (l : List FunctionInfo) (x : FunctionInfo) :
    x ∈ sort_records l ↔ x ∈ l :=
  List.mem_mergeSort

/-! ### Properties of the adjacent-dedup stage -/

theorem rust_dedup_sublist : ∀ l : List FunctionInfo, (rust_dedup l).Sublist l := by
  intro l
  induction l using rust_dedup.induct with
  | case1 => simp [rust_dedup]
  | case2 a => simp [rust_dedup]
  | case3 b rest ih =>
    rw [rust_dedup, if_pos rfl]
    exact ih.trans (List.Sublist.cons₂ b (List.sublist_cons_self b rest))
  | case4 a b rest h ih =>
    rw [rust_dedup, if_neg h]
    exact List.Sublist.cons₂ a ih

theorem mem_rust_dedup (x : FunctionInfo) : ∀ l : List FunctionInfo,
    x ∈ rust_dedup l ↔ x ∈ l := by
  intro l
  induction l using rust_dedup.induct with
  | case1 => simp [rust_dedup]
  | case2 a => simp [rust_dedup]
  | case3 b rest ih =>
    rw [rust_dedup, if_pos rfl]
    simp only [ih, List.mem_cons]
    tauto
  | case4 a b rest h ih =>
    rw [rust_dedup, if_neg h]
    simp [ih]

theorem rust_dedup_head (b : FunctionInfo) (rest : List FunctionInfo) :
    ∃ t, rust_dedup (b :: rest) = b :: t := by
  induction rest generalizing b with
  | nil => exact ⟨[], by simp [rust_dedup]⟩
  | cons c r ih =>
    by_cases h : b = c
    · subst h
      obtain ⟨t, ht⟩ := ih b
      exact ⟨t, by rw [rust_dedup, if_pos rfl]; exact ht⟩
    · obtain ⟨t, ht⟩ := ih c
      exact ⟨c :: t, by rw [rust_dedup, if_neg h, ht]⟩

theorem rust_dedup_chain_ne : ∀ l : List FunctionInfo, (rust_dedup l).Chain' (· ≠ ·) := by
  intro l
  induction l using rust_dedup.induct with
  | case1 => simp [rust_dedup]
  | case2 a => simp [rust_dedup]
  | case3 b rest ih =>
    rw [rust_dedup, if_pos rfl]
    exact ih
  | case4 a b rest h ih =>
    rw [rust_dedup, if_neg h]
    obtain ⟨t, ht⟩ := rust_dedup_head b rest
    rw [ht]
    rw [ht] at ih
    exact List.chain'_cons.mpr ⟨h, ih⟩

theorem pairwise_lt_of_pairwise_le_chain_ne :
    ∀ m : List FunctionInfo, m.Pairwise (fun a b => fiLe a b = true) →
      m.Chain' (fun a b => a ≠ b) → m.Pairwise fiLt := by
  intro m
  induction m with
  | nil => simp
  | cons a t ih =>
    intro hle hne
    rw [List.pairwise_cons] at hle ⊢
    obtain ⟨ha, ht⟩ := hle
    refine ⟨?_, ih ht hne.tail⟩
    intro x hx
    cases t with
    | nil => cases hx
    | cons b t' =>
      have hab : a ≠ b := (List.chain'_cons.mp hne).1
      have haltb : fiLt a b := fiLt_of_le_ne (ha b (by simp)) hab
      rcases List.mem_cons.mp hx with rfl | hx'
      · exact haltb
      · exact fiLt_of_lt_of_le haltb ((List.pairwise_cons.mp ht).1 x hx')

theorem sorted_dedup_pairwise_lt (l : List FunctionInfo) :
    (rust_dedup (sort_records l)).Pairwise fiLt :=
  pairwise_lt_of_pairwise_le_chain_ne _
    ((sort_records_pairwise l).sublist (rust_dedup_sublist _))
    (rust_dedup_chain_ne _)

/-! ### Concrete fixtures used by witnesses and counterexamples -/

/-- Fully resolved `bar` at `a.c:5`. -/
def barRec : FunctionInfo := ⟨"bar", "a.c", 5, 1⟩

/-- Fully resolved `foo` at `a.c:10`. -/
def fooRec : FunctionInfo := ⟨"foo", "a.c", 10, 1⟩

/-- A tiny `.debug_str`: offset 0 holds "f", offset 7 holds "a.c". -/
def dw0 : Dwarf := ⟨[(0, "f"), (7, "a.c")]⟩

/-- A line-program header: three file entries (the third one pointing at a
directory whose value is not an inline string) and two directories. -/
def lp0 : LineProgramHeader :=
  ⟨[⟨0, .StringVal "x.c"⟩, ⟨1, .DebugStrRef 7⟩, ⟨0, .Udata 4⟩],
   [.Udata 9, .StringVal "src"]⟩

/-- A compilation unit named "mod.c" with line program `lp0`. -/
def cu0 : CompUnit := ⟨some "mod.c", some lp0, []⟩

/-- A subprogram entry carrying only a name attribute. -/
def nameOnlyEntry : Entry := ⟨.DW_TAG_subprogram, [(.DW_AT_name, .DebugStrRef 0)]⟩

/-- A subprogram entry whose declaration-line attribute has no unsigned
numeric interpretation. -/
def badLineEntry : Entry := ⟨.DW_TAG_subprogram, [(.DW_AT_decl_line, .Other)]⟩

/-! ### The claims -/

/-- C1: `process_subprogram` yields a record exactly when all four fields
(name, file, line, column) resolved; when the attribute loop succeeds but
a field is missing it yields no record and no error, and such an entry
contributes nothing: processing the remaining entries is unchanged. -/
theorem process_subprogram_record_iff (d : Dwarf) (u : CompUnit) (e : Entry)
    (st : AttrState) (rest : List Entry) (acc : List FunctionInfo)
    (h : process_attrs d u e.attrs initAttrState = .ok st) :
    ((∃ r, process_subprogram d u e = .ok (some r)) ↔
      (st.func_name.isSome ∧ st.file_name.isSome ∧
        st.line_number.isSome ∧ st.column_number.isSome)) ∧
    (process_subprogram d u e = .ok none →
      run_entries d u (e :: rest) acc = run_entries d u rest acc) := by
  obtain ⟨fn, fi, ln, cn⟩ := st
  constructor
  · simp only [process_subprogram, h]
    cases fn <;> cases fi <;> cases ln <;> cases cn <;> simp
  · intro hnone
    obtain ⟨tag, attrs⟩ := e
    cases tag with
    | DW_TAG_subprogram => simp [run_entries, hnone]
    | otherTag => simp [run_entries]

/-- C1 witness: an entry with only a name resolves no record, aborts
nothing, and leaves the rest of the entry stream's processing unchanged. -/
theorem process_subprogram_record_iff_witness :
    run_entries dw0 cu0 [nameOnlyEntry] [] = run_entries dw0 cu0 [] [] :=
  (process_subprogram_record_iff dw0 cu0 nameOnlyEntry ⟨some "f", none, none, none⟩ [] []
    (by decide)).2 (by decide)

/-- C2: the final record list is strictly ascending (hence free of
repeated records) in the lexicographic order over (name, file, line,
column), and on the bar/foo example the bar line precedes the foo line. -/
theorem final_list_sorted_nodup :
    (∀ l : List FunctionInfo, (rust_dedup (sort_records l)).Pairwise fiLt) ∧
    (∀ a b : FunctionInfo, fiLt a b ↔ (a.func_name < b.func_name ∨ (a.func_name = b.func_name ∧
      (a.file_name < b.file_name ∨ (a.file_name = b.file_name ∧
        (a.line_number < b.line_number ∨ (a.line_number = b.line_number ∧
          a.column_number < b.column_number))))))) ∧
    rust_dedup (sort_records [fooRec, barRec]) = [barRec, fooRec] := by
  refine ⟨sorted_dedup_pairwise_lt, fiLt_iff_lex, ?_⟩
  have h1 : fiLe fooRec barRec = false := by decide
  have h2 : ¬ (barRec = fooRec) := by decide
  simp [sort_records, List.mergeSort, List.merge, h1, rust_dedup, h2]

/-- C3: a declaring-file index equal to the module-file sentinel resolves
to the unit's own recorded source name, whatever the unit's line table
contains. -/
theorem module_file_sentinel (d : Dwarf) (u : CompUnit) (n : String) (st : AttrState)
    (h : u.name = some n) :
    resolve_decl_file d u 1 = .ok (some n) ∧
    process_attr d u st (.DW_AT_decl_file, .FileIndex 1) =
      .ok { st with file_name := some n } := by
  have hr : resolve_decl_file d u 1 = .ok (some n) := by
    simp [resolve_decl_file, u64_checked_sub, h]
  exact ⟨hr, by simp [process_attr, hr]⟩

/-- C3 witness: sentinel resolution on the concrete unit. -/
theorem module_file_sentinel_witness :
    resolve_decl_file dw0 cu0 1 = .ok (some "mod.c") :=
  (module_file_sentinel dw0 cu0 "mod.c" initAttrState rfl).1

/-- C4: a non-sentinel declaring-file index resolves to the directory
string joined with the file name, both taken from the file-table entry the
code selects (`file_names().get(val - 1)`, the table position the
DWARF encoding assigns to index `val`). -/
theorem nonsentinel_decl_file (d : Dwarf) (u : CompUnit) (val : Nat)
    (lp : LineProgramHeader) (f : FileEntry) (s fs : String)
    (hval : 2 ≤ val)
    (hlp : u.line_program = some lp)
    (hf : lp.file_names[val - 1]? = some f)
    (hdir : lp.directories[f.directory_index]? = some (.StringVal s))
    (hfs : attr_string d u f.path_name = some fs) :
    resolve_decl_file d u val = .ok (some (path_join s fs)) := by
  have h1 : u64_checked_sub val 1 = .ok (val - 1) := by
    rw [u64_checked_sub, if_neg (by omega)]
  have h0 : ¬ (val - 1 = 0) := by omega
  simp [resolve_decl_file, h1, h0, hlp, hf, hdir, hfs]

/-- C4 witness: index 2 on the concrete unit resolves to src/a.c. -/
theorem nonsentinel_decl_file_witness :
    resolve_decl_file dw0 cu0 2 = .ok (some (path_join "src" "a.c")) :=
  nonsentinel_decl_file dw0 cu0 2 lp0 ⟨1, .DebugStrRef 7⟩ "src" "a.c"
    (by decide) rfl (by decide) (by decide) (by decide)

/-- C5 counterexample: a subprogram entry whose declaration-line attribute
value has no unsigned numeric interpretation aborts the run
(`udata_value().unwrap()` panics); the entry is not silently skipped. -/
theorem decl_line_bad_kind_aborts :
    process_subprogram dw0 cu0 badLineEntry = .aborted ∧
    process_subprogram dw0 cu0 badLineEntry ≠ .ok none := by
  decide

/-- C5 amended: a name or declaring-file attribute of unexpected kind is
ignored for that field (state unchanged, no abort), but a
declaration-line or declaration-column attribute whose value has no
unsigned numeric interpretation aborts the run. -/
theorem attr_kind_policy (d : Dwarf) (u : CompUnit) (st : AttrState)
    (av : AttributeValue) (v off : Nat) (s : String) :
    process_attr d u st (.DW_AT_name, .FileIndex v) = .ok st ∧
    process_attr d u st (.DW_AT_name, .StringVal s) = .ok st ∧
    process_attr d u st (.DW_AT_name, .Udata v) = .ok st ∧
    process_attr d u st (.DW_AT_name, .Other) = .ok st ∧
    process_attr d u st (.DW_AT_decl_file, .DebugStrRef off) = .ok st ∧
    process_attr d u st (.DW_AT_decl_file, .StringVal s) = .ok st ∧
    process_attr d u st (.DW_AT_decl_file, .Udata v) = .ok st ∧
    process_attr d u st (.DW_AT_decl_file, .Other) = .ok st ∧
    (udata_value av = none → process_attr d u st (.DW_AT_decl_line, av) = .aborted) ∧
    (udata_value av = none → process_attr d u st (.DW_AT_decl_column, av) = .aborted) := by
  refine ⟨rfl, rfl, rfl, rfl, rfl, rfl, rfl, rfl, ?_, ?_⟩ <;>
    (intro h; simp [process_attr, h])

/-- C5 amended witness: an ignored name mismatch and an aborting
declaration-line mismatch, on concrete values. -/
theorem attr_kind_policy_witness :
    process_attr dw0 cu0 initAttrState (.DW_AT_name, .Other) = .ok initAttrState ∧
    process_attr dw0 cu0 initAttrState (.DW_AT_decl_line, .Other) = .aborted := by
  have h := attr_kind_policy dw0 cu0 initAttrState .Other 0 0 "s"
  exact ⟨h.2.2.2.1, h.2.2.2.2.2.2.2.2.1 rfl⟩

/-- C6: output is all-or-nothing: an abort anywhere during traversal
yields no output at all, and otherwise the output is the complete index
(headers plus every sorted, deduplicated record line). -/
theorem no_partial_output (d : Dwarf) (units : List CompUnit) :
    (collect d units = .aborted ∧ main_output d units = .aborted) ∨
    (∃ l, collect d units = .ok l ∧ main_output d units =
      .ok (ctags_header_1 :: ctags_header_2 ::
        (rust_dedup (sort_records l)).map print_file_info)) := by
  cases hc : collect d units with
  | aborted => exact Or.inl ⟨rfl, by simp [main_output, hc]⟩
  | ok l => exact Or.inr ⟨l, rfl, by simp [main_output, hc]⟩

/-- C7: the emitter writes the two fixed header lines unconditionally,
then one tab-separated line per record of the form name, file,
':'-prefixed line; the column never influences a printed line; with zero
records the output is exactly the two header lines. -/
theorem emitter_format (d : Dwarf) (units : List CompUnit) (l : List FunctionInfo)
    (f : FunctionInfo) (c : Nat)
    (h : collect d units = .ok l) :
    main_output d units = .ok (ctags_header_1 :: ctags_header_2 ::
      (rust_dedup (sort_records l)).map print_file_info) ∧
    print_file_info f = f.func_name ++ "\t" ++ f.file_name ++ "\t:" ++
      toString f.line_number ∧
    print_file_info { f with column_number := c } = print_file_info f ∧
    (l = [] → main_output d units = .ok [ctags_header_1, ctags_header_2]) := by
  refine ⟨by simp [main_output, h], rfl, rfl, ?_⟩
  rintro rfl
  simp [main_output, h, sort_records, rust_dedup]

/-- C7 witness: with no units the output is exactly the two headers. -/
theorem emitter_format_witness :
    main_output dw0 [] = .ok [ctags_header_1, ctags_header_2] :=
  (emitter_format dw0 [] [] fooRec 0 rfl).2.2.2 rfl

/-- C8: adjacent dedup after the sort removes every duplicate: the result
has no duplicates at all while keeping exactly the members of the input
collection. -/
theorem sort_dedup_removes_all_duplicates :
    (∀ l : List FunctionInfo, (rust_dedup (sort_records l)).Nodup) ∧
    (∀ (l : List FunctionInfo) (x : FunctionInfo),
      x ∈ rust_dedup (sort_records l) ↔ x ∈ l) := by
  constructor
  · intro l
    exact (sorted_dedup_pairwise_lt l).imp (fun h => fiLt_ne h)
  · intro l x
    rw [mem_rust_dedup, sort_records_mem]

/-- C9: the sentinel test is the unguarded subtraction `val - 1 == 0`:
it fires exactly at raw value 1; at raw value 0 the u64 subtraction
underflows and the run aborts without reaching either resolution branch;
at raw values ≥ 2 the unit name is never consulted, and at raw value 1
the line table is never consulted. -/
theorem sentinel_unguarded_subtraction (d : Dwarf) (u : CompUnit) (val : Nat) :
    (u64_checked_sub val 1 = .ok 0 ↔ val = 1) ∧
    resolve_decl_file d u 0 = .aborted ∧
    (∀ lp2, resolve_decl_file d { u with line_program := lp2 } 1 =
      resolve_decl_file d u 1) ∧
    (∀ nm2, 2 ≤ val → resolve_decl_file d { u with name := nm2 } val =
      resolve_decl_file d u val) := by
  refine ⟨?_, ?_, ?_, ?_⟩
  · rw [u64_checked_sub]
    rcases Nat.lt_or_ge val 1 with h | h
    · have hv : val = 0 := by omega
      subst hv
      rw [if_pos (by omega)]
      simp
    · rw [if_neg (by omega)]
      simp
      omega
  · simp [resolve_decl_file, u64_checked_sub]
  · intro lp2
    simp [resolve_decl_file, u64_checked_sub]
  · intro nm2 h2
    have h1 : u64_checked_sub val 1 = .ok (val - 1) := by
      rw [u64_checked_sub, if_neg (by omega)]
    have h0 : ¬ (val - 1 = 0) := by omega
    simp [resolve_decl_file, h1, h0, attr_string]

/-- C9 witness: raw value 0 aborts, and at raw value 5 the unit name is
irrelevant. -/
theorem sentinel_unguarded_subtraction_witness :
    resolve_decl_file dw0 cu0 0 = .aborted ∧
    resolve_decl_file dw0 { cu0 with name := none } 5 = resolve_decl_file dw0 cu0 5 :=
  ⟨(sentinel_unguarded_subtraction dw0 cu0 5).2.1,
   (sentinel_unguarded_subtraction dw0 cu0 5).2.2.2 none (by decide)⟩

/-- C10: in the non-sentinel path the directory must be an inline string:
any other directory encoding leaves the file field unresolved and the
attribute is silently ignored (no abort) — even though the file's own
name is obtained through `attr_string`, whose unit-scoped lookup also
resolves string-table references. -/
theorem dir_requires_inline_string (d : Dwarf) (u : CompUnit) (val : Nat)
    (lp : LineProgramHeader) (f : FileEntry) (st : AttrState) (dirv : AttributeValue)
    (hval : 2 ≤ val)
    (hlp : u.line_program = some lp)
    (hf : lp.file_names[val - 1]? = some f)
    (hdir : lp.directories[f.directory_index]? = some dirv)
    (hstr : ∀ s, dirv ≠ .StringVal s) :
    resolve_decl_file d u val = .ok none ∧
    process_attr d u st (.DW_AT_decl_file, .FileIndex val) = .ok st ∧
    (∀ off fs, f.path_name = .DebugStrRef off → get_str d off = some fs →
      attr_string d u f.path_name = some fs) := by
  have h1 : u64_checked_sub val 1 = .ok (val - 1) := by
    rw [u64_checked_sub, if_neg (by omega)]
  have h0 : ¬ (val - 1 = 0) := by omega
  have hr : resolve_decl_file d u val = .ok none := by
    cases dirv with
    | StringVal s => exact absurd rfl (hstr s)
    | DebugStrRef o => simp [resolve_decl_file, h1, h0, hlp, hf, hdir]
    | FileIndex v => simp [resolve_decl_file, h1, h0, hlp, hf, hdir]
    | Udata v => simp [resolve_decl_file, h1, h0, hlp, hf, hdir]
    | Other => simp [resolve_decl_file, h1, h0, hlp, hf, hdir]
  refine ⟨hr, by simp [process_attr, hr], ?_⟩
  intro off fs hp hg
  simp [attr_string, hp, hg]

/-- C10 witness: file index 3 selects the file entry whose directory value
is a number, so the attribute is silently ignored. -/
theorem dir_requires_inline_string_witness :
    resolve_decl_file dw0 cu0 3 = .ok none ∧
    process_attr dw0 cu0 initAttrState (.DW_AT_decl_file, .FileIndex 3) =
      .ok initAttrState := by
  have h := dir_requires_inline_string dw0 cu0 3 lp0 ⟨0, .Udata 4⟩ initAttrState (.Udata 9)
    (by decide) rfl (by decide) (by decide) (fun s hh => by cases hh)
  exact ⟨h.1, h.2.1⟩

end Dwarf2Ctags
